import Mathlib

/-!
Verification development for `errata_report.py`, a Red Hat security-advisory
(errata) harvesting pipeline.  The script loads a persisted JSON store keyed by
errata id, scrapes a listing page, enriches each new row with CVE ids scraped
from a detail page and an optional LLM summary, merges the results into the
store, and exports a CSV report sorted by issue date.

The embedding below models the data-handling core faithfully:

* JSON values are modelled by the inductive `Json`; Python `dict`s are
  association lists (`Collection`) whose insert/lookup use Python's `==` on
  the (always hashable, i.e. scalar) keys, via `pyKeyEq`.  (CPython's
  cross-type numeric equality `True == 1` cannot arise from the data this
  program writes and is modelled as inequality.)
* Python exceptions are `Except PyErr`; an exception caught by a handler in
  the source is caught at the same place in the model.
* The three network call sites (listing fetch, detail fetch, LLM call) are
  oracle parameters, so determinism/idempotence across runs is expressible.
* `str.strip` is `pyStrip`, `in` (substring) is `strContainsB`, string `<`
  comparison is code-point lexicographic (`strLe`), and `sorted` is the
  stable insertion sort `ssort` (stable sorts agree on their output, so this
  matches CPython's Timsort).
-/

namespace ErrataReport

/-! ### JSON values and the Python dict model -/

/-- A JSON value, as produced by `json.load` / consumed by `json.dump`.
Numbers are modelled as integers (the store only ever holds strings, and the
claims never involve floats). -/
inductive Json where
  | str (s : String)
  | num (n : Int)
  | bool (b : Bool)
  | null
  | arr (items : List Json)
  | obj (fields : List (String × Json))

/-- Python `==` restricted to the values that can occur as `dict` keys
(hashable values: everything except lists and dicts).  On those, equality is
structural.  (CPython additionally identifies `True` with `1` etc.; such mixed
keys never occur in this program's data.) -/
def pyKeyEq : Json → Json → Bool
  | .str a, .str b => a == b
  | .num a, .num b => a == b
  | .bool a, .bool b => a == b
  | .null, .null => true
  | _, _ => false

theorem pyKeyEq_eq {a b : Json} (h : pyKeyEq a b = true) : a = b := by
  cases a <;> cases b <;> simp [pyKeyEq] at h <;> simp [h]

/-- `True` exactly on values CPython can use as `dict` keys (hashable). -/
def hashB : Json → Bool
  | .arr _ => false
  | .obj _ => false
  | _ => true

theorem pyKeyEq_refl {a : Json} (h : hashB a = true) : pyKeyEq a a = true := by
  cases a <;> simp [pyKeyEq, hashB] at h ⊢

theorem pyKeyEq_symm {a b : Json} : pyKeyEq a b = pyKeyEq b a := by
  cases a <;> cases b <;> simp [pyKeyEq] <;> exact ⟨fun h => h.symm, fun h => h.symm⟩

/-- A Python `dict` with JSON keys and values, in insertion order. -/
abbrev Collection := List (Json × Json)

/-- The key list of a dict, in insertion order (`data.keys()`). -/
def keys (data : Collection) : List Json := data.map (fun p => p.1)

/-- Python `d[k] = v`: replace the value at the first key equal to `k`
(keeping the originally stored key object and its position), else append. -/
def dinsert (k v : Json) : Collection → Collection
  | [] => [(k, v)]
  | (k1, v1) :: rest =>
    if pyKeyEq k1 k then (k1, v) :: rest else (k1, v1) :: dinsert k v rest

/-- Python `d.get(k)` / `d[k]` lookup. -/
def dlookup (k : Json) : Collection → Option Json
  | [] => none
  | (k1, v1) :: rest => if pyKeyEq k1 k then some v1 else dlookup k rest

/-- Python `k in d`. -/
def containsKeyB (k : Json) (data : Collection) : Bool :=
  data.any (fun p => pyKeyEq p.1 k)

/-- Pairwise distinctness (under Python key equality) of a key list: the
basic `dict` invariant. -/
def distinctKeysB : List Json → Bool
  | [] => true
  | k :: rest => rest.all (fun k2 => !(pyKeyEq k k2)) && distinctKeysB rest

theorem dinsert_of_not_contains {k : Json} (v : Json) :
    ∀ {data : Collection}, containsKeyB k data = false →
      dinsert k v data = data ++ [(k, v)] := by
  intro data
  induction data with
  | nil => intro h; rfl
  | cons p rest ih =>
    intro h
    obtain ⟨k1, v1⟩ := p
    simp [containsKeyB] at h
    simp [dinsert, h.1, ih (by simpa [containsKeyB] using h.2)]

theorem keys_dinsert_contains {k : Json} (v : Json) :
    ∀ {data : Collection}, containsKeyB k data = true →
      keys (dinsert k v data) = keys data := by
  intro data
  induction data with
  | nil => intro h; simp [containsKeyB] at h
  | cons p rest ih =>
    intro h
    obtain ⟨k1, v1⟩ := p
    by_cases h1 : pyKeyEq k1 k
    · simp [dinsert, h1, keys]
    · simp [containsKeyB, h1] at h
      simp [dinsert, h1, keys]
      simpa [keys] using ih (by simpa [containsKeyB] using h)

theorem dlookup_dinsert (k k2 v : Json) :
    ∀ (data : Collection),
      dlookup k (dinsert k2 v data)
        = if pyKeyEq k2 k then some v else dlookup k data := by
  intro data
  induction data with
  | nil => simp [dinsert, dlookup]
  | cons p rest ih =>
    obtain ⟨k1, v1⟩ := p
    by_cases h1 : pyKeyEq k1 k2
    · have hk : k1 = k2 := pyKeyEq_eq h1
      subst hk
      by_cases h2 : pyKeyEq k1 k <;> simp [dinsert, dlookup, h1, h2]
    · by_cases h2 : pyKeyEq k1 k
      · have hk : k1 = k := pyKeyEq_eq h2
        subst hk
        have : pyKeyEq k2 k1 = false := by
          rw [pyKeyEq_symm]; simpa using h1
        simp [dinsert, dlookup, h1, h2, this]
      · simp [dinsert, dlookup, h1, h2, ih]

theorem mem_keys_dinsert {k : Json} (k2 v : Json) :
    ∀ {data : Collection}, k ∈ keys data → k ∈ keys (dinsert k2 v data) := by
  intro data
  induction data with
  | nil => intro h; simp [keys] at h
  | cons p rest ih =>
    intro h
    obtain ⟨k1, v1⟩ := p
    by_cases h1 : pyKeyEq k1 k2
    · simpa [dinsert, h1, keys] using h
    · simp [keys] at h
      rcases h with h | h
      · simp [dinsert, h1, keys, h]
      · simp [dinsert, h1, keys]
        exact Or.inr (by simpa [keys] using ih (by simpa [keys] using h))

/-! ### String helpers (Python semantics) -/

/-- Python `str.strip()`: remove leading and trailing whitespace. -/
def pyStrip (s : String) : String :=
  String.mk (((s.data.dropWhile Char.isWhitespace).reverse.dropWhile
    Char.isWhitespace).reverse)

/-- Does `l` start with `pat`? -/
def startsWithB : List Char → List Char → Bool
  | [], _ => true
  | _ :: _, [] => false
  | c :: cs, d :: ds => c == d && startsWithB cs ds

/-- Substring test on character lists. -/
def subListB (pat : List Char) : List Char → Bool
  | [] => pat.isEmpty
  | c :: rest => startsWithB pat (c :: rest) || subListB pat rest

/-- Python `pat in s` (substring containment). -/
def strContainsB (s pat : String) : Bool := subListB pat.data s.data

/-- Code-point lexicographic `≤` on character lists, as CPython compares
strings. -/
def lexLe : List Char → List Char → Bool
  | [], _ => true
  | _ :: _, [] => false
  | c :: cs, d :: ds =>
    if c.toNat < d.toNat then true
    else if d.toNat < c.toNat then false
    else lexLe cs ds

/-- Python `a <= b` on strings. -/
def strLe (a b : String) : Bool := lexLe a.data b.data

theorem lexLe_total : ∀ a b : List Char, lexLe a b || lexLe b a := by
  intro a
  induction a with
  | nil => intro b; simp [lexLe]
  | cons c cs ih =>
    intro b
    cases b with
    | nil => simp [lexLe]
    | cons d ds =>
      by_cases h1 : c.toNat < d.toNat
      · simp [lexLe, h1]
      · by_cases h2 : d.toNat < c.toNat
        · simp [lexLe, h1, h2]
        · simpa [lexLe, h1, h2] using ih ds

theorem lexLe_trans : ∀ a b c : List Char,
    lexLe a b = true → lexLe b c = true → lexLe a c = true := by
  intro a
  induction a with
  | nil => intro b c _ _; simp [lexLe]
  | cons x xs ih =>
    intro b c hab hbc
    cases b with
    | nil => simp [lexLe] at hab
    | cons y ys =>
      cases c with
      | nil => simp [lexLe] at hbc
      | cons z zs =>
        simp [lexLe] at hab hbc ⊢
        rcases hab with h1 | ⟨h1, h1x⟩ <;> rcases hbc with h2 | ⟨h2, h2x⟩
        · exact Or.inl (by omega)
        · exact Or.inl (by omega)
        · exact Or.inl (by omega)
        · exact Or.inr ⟨by omega, ih ys zs h1x h2x⟩

theorem strLe_total (a b : String) : strLe a b || strLe b a := lexLe_total a.data b.data

theorem strLe_trans {a b c : String} (h1 : strLe a b = true) (h2 : strLe b c = true) :
    strLe a c = true := lexLe_trans a.data b.data c.data h1 h2

/-- Python `", ".join(l)`. -/
def joinComma : List String → String
  | [] => ""
  | [x] => x
  | x :: rest => x ++ ", " ++ joinComma rest

/-- Membership test on string lists. -/
def memStrB (s : String) (l : List String) : Bool := l.any (fun t => t == s)

theorem memStrB_iff {s : String} {l : List String} : memStrB s l = true ↔ s ∈ l := by
  unfold memStrB
  rw [List.any_eq_true]
  constructor
  · rintro ⟨x, hx, he⟩
    have hxe : x = s := by simpa using he
    subst hxe; exact hx
  · intro h
    exact ⟨s, h, by simp⟩

/-- Duplicate removal (models `set(...)` before sorting; which duplicate is
kept is irrelevant after sorting). -/
def dedupStr : List String → List String
  | [] => []
  | x :: xs => if memStrB x xs then dedupStr xs else x :: dedupStr xs

theorem mem_dedupStr {s : String} : ∀ {l : List String}, s ∈ dedupStr l ↔ s ∈ l := by
  intro l
  induction l with
  | nil => simp [dedupStr]
  | cons x xs ih =>
    by_cases h : memStrB x xs
    · simp [dedupStr, h, ih]
      intro he; subst he; exact memStrB_iff.mp h
    · simp [dedupStr, h, ih]

theorem nodup_dedupStr : ∀ (l : List String), (dedupStr l).Nodup := by
  intro l
  induction l with
  | nil => simp [dedupStr]
  | cons x xs ih =>
    by_cases h : memStrB x xs
    · simpa [dedupStr, h] using ih
    · simp [dedupStr, h, ih]
      intro hmem
      exact h (memStrB_iff.mpr (mem_dedupStr.mp hmem))

/-! ### Stable insertion sort (models CPython's stable `sorted`) -/

/-- Insert `x` before the first element `y` with `le x y` (so among equal
elements, the earlier-inserted element keeps priority: stability). -/
def sinsert (le : α → α → Bool) (x : α) : List α → List α
  | [] => [x]
  | y :: ys => if le x y then x :: y :: ys else y :: sinsert le x ys

/-- Stable sort: structurally recursive, hence computable by the kernel. -/
def ssort (le : α → α → Bool) : List α → List α
  | [] => []
  | x :: xs => sinsert le x (ssort le xs)

theorem sinsert_perm (le : α → α → Bool) (x : α) :
    ∀ (l : List α), (sinsert le x l).Perm (x :: l) := by
  intro l
  induction l with
  | nil => simp [sinsert]
  | cons y ys ih =>
    cases h : le x y with
    | true => simp [sinsert, h]
    | false =>
      rw [show sinsert le x (y :: ys) = y :: sinsert le x ys from by simp [sinsert, h]]
      exact (ih.cons y).trans (List.Perm.swap x y ys)

theorem ssort_perm (le : α → α → Bool) : ∀ (l : List α), (ssort le l).Perm l := by
  intro l
  induction l with
  | nil => simp [ssort]
  | cons x xs ih =>
    exact (sinsert_perm le x (ssort le xs)).trans (ih.cons x)

theorem sinsert_pairwise (le : α → α → Bool)
    (htrans : ∀ a b c, le a b = true → le b c = true → le a c = true)
    (htot : ∀ a b, le a b || le b a) (x : α) :
    ∀ {l : List α}, l.Pairwise (fun a b => le a b = true) →
      (sinsert le x l).Pairwise (fun a b => le a b = true) := by
  intro l
  induction l with
  | nil => intro _; simp [sinsert]
  | cons y ys ih =>
    intro h
    rcases List.pairwise_cons.mp h with ⟨hy, hys⟩
    cases hxy : le x y with
    | true =>
      rw [show sinsert le x (y :: ys) = x :: y :: ys from by simp [sinsert, hxy]]
      refine List.pairwise_cons.mpr ⟨?_, h⟩
      intro b hb
      rcases List.mem_cons.mp hb with hb | hb
      · subst hb; exact hxy
      · exact htrans x y b hxy (hy b hb)
    | false =>
      rw [show sinsert le x (y :: ys) = y :: sinsert le x ys from by simp [sinsert, hxy]]
      have hyx : le y x = true := by
        have := htot x y
        simp [hxy] at this
        exact this
      refine List.pairwise_cons.mpr ⟨?_, ih hys⟩
      intro b hb
      have hb2 : b ∈ x :: ys := (sinsert_perm le x ys).mem_iff.mp hb
      rcases List.mem_cons.mp hb2 with hb3 | hb3
      · subst hb3; exact hyx
      · exact hy b hb3

theorem ssort_pairwise (le : α → α → Bool)
    (htrans : ∀ a b c, le a b = true → le b c = true → le a c = true)
    (htot : ∀ a b, le a b || le b a) :
    ∀ (l : List α), (ssort le l).Pairwise (fun a b => le a b = true) := by
  intro l
  induction l with
  | nil => simp [ssort]
  | cons x xs ih => exact sinsert_pairwise le htrans htot x ih

/-! ### Python exceptions -/

/-- The exception classes the script can raise or catch outside the
transport layer. -/
inductive PyErr where
  | keyError
  | indexError
  | typeError
  | attributeError

/-- Lookup in a string-keyed association list (a parsed JSON object's
fields, or a `dict` whose keys are known to be strings). -/
def lookupStr (key : String) : List (String × Json) → Option Json
  | [] => none
  | (k, v) :: rest => if k = key then some v else lookupStr key rest

/-! ### Summarizer: `summarize_with_llm` (errata_report.py lines 24-56) -/

/-- Python truthiness test `not x` for an `Optional[str]` argument:
`None` and `""` are falsy. -/
def falsy : Option String → Bool
  | none => true
  | some s => s.isEmpty

/-- Outcome of `requests.post(...)` + `raise_for_status()` + `.json()`.
`requestError` covers every `requests.exceptions.RequestException`
(connection error, timeout, non-2xx status, undecodable body) — exactly
what the first `except` clause of the source catches. -/
inductive PostResult where
  | requestError
  | success (body : Json)

/-- Python `v.get(key, default)`: only dicts have `.get`; any other value
raises `AttributeError` (which the source does not catch). -/
def pyGet (v : Json) (key : String) (default : Json) : Except PyErr Json :=
  match v with
  | .obj fields => .ok ((lookupStr key fields).getD default)
  | _ => .error .attributeError

/-- Python `v[0]`: first element of a list (IndexError when empty), first
character of a string, `KeyError` for a dict without key `0`, `TypeError`
otherwise. -/
def pyIndex0 : Json → Except PyErr Json
  | .arr [] => .error .indexError
  | .arr (x :: _) => .ok x
  | .str s =>
    match s.data with
    | [] => .error .indexError
    | c :: _ => .ok (.str (String.mk [c]))
  | .obj _ => .error .keyError
  | _ => .error .typeError

/-- Python `v.strip()`: only strings have `.strip`. -/
def pyStripJson : Json → Except PyErr String
  | .str s => .ok (pyStrip s)
  | _ => .error .attributeError

/-- `summarize_with_llm(text, llm_url, api_token, model)`.  The network
call is abstracted by `post`.  `KeyError`/`IndexError` during extraction
are caught (second `except` clause); `TypeError`/`AttributeError` are not
and propagate to the caller. -/
def summarize_with_llm (text : String) (llm_url api_token model : Option String)
    (post : PostResult) : Except PyErr String :=
  if falsy llm_url || falsy api_token || falsy model then
    .ok ("[AI 요약 생략] " ++ text)
  else
    match post with
    | .requestError => .ok "AI 요약 실패"
    | .success result =>
      match (do
        let choices ← pyGet result "choices" (.arr [.obj []])
        let c0 ← pyIndex0 choices
        let msg ← pyGet c0 "message" (.obj [])
        let content ← pyGet msg "content" (.str "AI 요약 실패: 응답 형식 불일치")
        pyStripJson content : Except PyErr String) with
      | .ok s => .ok s
      | .error .keyError => .ok "AI 요약 실패"
      | .error .indexError => .ok "AI 요약 실패"
      | .error e => .error e

/-! ### DetailFetcher: `get_cve_details` (errata_report.py lines 59-76) -/

/-- An `<a>` element as returned by the CSS selector
`a[href*='/security/cve/CVE-']` candidate scan: its `href` and text. -/
structure ALink where
  href : String
  text : String

/-- A parsed detail page: the links inside `<section id="cves">` when that
section exists, and the links elsewhere in the body (which the code never
consults). -/
structure DetailPage where
  cveSection : Option (List ALink)
  bodyLinks : List ALink

/-- Outcome of `requests.get(detail_url, ...)` + `raise_for_status()`:
`failure` is any `requests.exceptions.RequestException`. -/
inductive FetchResult where
  | failure
  | success (page : DetailPage)

/-- The identifier-URL pattern of the CSS selector. -/
def cveHrefPat : String := "/security/cve/CVE-"

/-- `get_cve_details(detail_url)`, with the network/parse result supplied
as `FetchResult`.  `", ".join(sorted(list(set(ids))))` is modelled as the
stable sort of the de-duplicated token list. -/
def get_cve_details : FetchResult → String
  | .failure => "상세 확인 실패"
  | .success page =>
    match page.cveSection with
    | some links =>
      let cve_links := links.filter (fun a => strContainsB a.href cveHrefPat)
      if cve_links.isEmpty then "CVE 정보 없음"
      else joinComma (ssort strLe (dedupStr (cve_links.map (fun a => pyStrip a.text))))
    | none => "CVE 정보 없음"

/-- Modelled from the spec: the DetailFetcher contract in §4.2 says that
when no structural identifier container exists the extraction scans the
whole body ("otherwise scan the whole body") before falling back to the
"none found" sentinel.  This definition follows those words; the source
(`get_cve_details`) instead returns the sentinel immediately when
`section#cves` is absent. -/
def get_cve_details_specModel : FetchResult → String
  | .failure => "상세 확인 실패"
  | .success page =>
    let links := match page.cveSection with
      | some links => links
      | none => page.bodyLinks
    let cve_links := links.filter (fun a => strContainsB a.href cveHrefPat)
    if cve_links.isEmpty then "CVE 정보 없음"
    else joinComma (ssort strLe (dedupStr (cve_links.map (fun a => pyStrip a.text))))

/-! ### Store: `load_existing_data` / `save_data_to_json`
(errata_report.py lines 78-101) -/

/-- The observable states of the store file.  `ioError` and `undecodable`
are the two exception classes (`IOError`, `json.JSONDecodeError`) the
source catches and maps to `{}`. -/
inductive LoadFile where
  | absent
  | ioError
  | undecodable
  | content (data : Json)

/-- Python `'errata_id' in item` for an arbitrary JSON value: key test for
dicts, element equality for lists (a non-string element never equals a
string), substring test for strings, `TypeError` for numbers, booleans and
`None` (not iterable). -/
def hasIdKeyB : Json → Except PyErr Bool
  | .obj fields => .ok (fields.any (fun p => p.1 == "errata_id"))
  | .arr items =>
    .ok (items.any (fun j => match j with | .str s => s == "errata_id" | _ => false))
  | .str s => .ok (strContainsB s "errata_id")
  | _ => .error .typeError

/-- Python `item['errata_id']` (evaluated only after the `in` test
succeeded): field access for dicts; strings and lists reject a string
index with `TypeError`. -/
def getIdVal : Json → Except PyErr Json
  | .obj fields =>
    match lookupStr "errata_id" fields with
    | some v => .ok v
    | none => .error .keyError
  | _ => .error .typeError

/-- Using a value as a `dict` key: lists and dicts are unhashable
(`TypeError`). -/
def asKey : Json → Except PyErr Json
  | .arr _ => .error .typeError
  | .obj _ => .error .typeError
  | j => .ok j

/-- The dict comprehension
`{item['errata_id']: item for item in data if 'errata_id' in item}`,
evaluated left to right. -/
def convertListAux (acc : Collection) : List Json → Except PyErr Collection
  | [] => .ok acc
  | item :: rest => do
    let b ← hasIdKeyB item
    if b then
      let idv ← getIdVal item
      let k ← asKey idv
      convertListAux (dinsert k item acc) rest
    else
      convertListAux acc rest

/-- `load_existing_data(filename)`.  Absent file, `IOError` and
`json.JSONDecodeError` all yield `{}`; a parsed list is converted through
the dict comprehension (whose `TypeError`s are *not* caught and propagate);
a parsed dict is returned as is; any other parsed value yields `{}`. -/
def load_existing_data : LoadFile → Except PyErr Collection
  | .absent => .ok []
  | .ioError => .ok []
  | .undecodable => .ok []
  | .content data =>
    match data with
    | .arr items => convertListAux [] items
    | .obj fields => .ok (fields.map (fun p => (Json.str p.1, p.2)))
    | _ => .ok []

/-- `save_data_to_json(data, filename)`: the JSON content written,
`json.dump(list(data.values()), ...)`. -/
def save_data_to_json (data : Collection) : Json :=
  .arr (data.map (fun p => p.2))

/-! ### ReportWriter: `save_data_to_csv` (errata_report.py lines 103-124) -/

/-- Python `v[key]` for a string key: `KeyError` when the dict lacks the
key, `TypeError` on non-dict values. -/
def pyItem (v : Json) (key : String) : Except PyErr Json :=
  match v with
  | .obj fields =>
    match lookupStr key fields with
    | some x => .ok x
    | none => .error .keyError
  | _ => .error .typeError

/-- The fixed CSV header row. -/
def csvHeader : List String := ["권고 ID", "CVE ID", "심각도", "게시일", "요약", "AI 요약"]

/-- One `writer.writerow([...])` for a record. -/
def recordRow (v : Json) : Except PyErr (List Json) := do
  let a ← pyItem v "errata_id"
  let b ← pyItem v "cve_id"
  let c ← pyItem v "severity"
  let d ← pyItem v "issue_date"
  let e ← pyItem v "original_synopsis"
  let f ← pyItem v "summary"
  pure [a, b, c, d, e, f]

/-- Effectful map over a list, failing at the first error (Python's
left-to-right evaluation). -/
def exMapM (f : α → Except PyErr β) : List α → Except PyErr (List β)
  | [] => .ok []
  | x :: xs => do
    let y ← f x
    let ys ← exMapM f xs
    pure (y :: ys)

/-- Succeeds iff every sort key is a string. -/
def collectStrKeys : List (Json × Json) → Option (List (String × Json))
  | [] => some []
  | (k, v) :: rest =>
    match k with
    | .str s => (collectStrKeys rest).map (fun l => (s, v) :: l)
    | _ => none

/-- Succeeds iff every sort key is a number. -/
def collectNumKeys : List (Json × Json) → Option (List (Int × Json))
  | [] => some []
  | (k, v) :: rest =>
    match k with
    | .num n => (collectNumKeys rest).map (fun l => (n, v) :: l)
    | _ => none

/-- `sorted(values, key=lambda x: x['issue_date'], reverse=True)`, applied
to the already-extracted (key, value) pairs: stable descending sort.
CPython compares keys lazily: a single-element list is never compared (so
any key type is accepted), homogeneous `str` or numeric keys compare fine,
and other combinations raise `TypeError` on the first comparison.  (CPython
would also order `bool` against numeric keys; such keys cannot occur in
data this program writes and are modelled as the `TypeError` case.) -/
def sortValsByDate (keyed : List (Json × Json)) : Except PyErr (List Json) :=
  match keyed with
  | [] => .ok []
  | [kv] => .ok [kv.2]
  | _ =>
    match collectStrKeys keyed with
    | some skeyed => .ok ((ssort (fun a b => strLe b.1 a.1) skeyed).map (fun p => p.2))
    | none =>
      match collectNumKeys keyed with
      | some nkeyed =>
        .ok ((ssort (fun a b => decide (b.1 ≤ a.1)) nkeyed).map (fun p => p.2))
      | none => .error .typeError

/-- The rows a CSV export writes. -/
structure CsvOut where
  header : List String
  rows : List (List Json)

/-- `save_data_to_csv(data, filename)`: `none` models the early return for
an empty collection (no file written at all); otherwise header plus one row
per record, sorted by `issue_date` descending.  The `except IOError` in the
source only absorbs file-write failures, which are outside this model;
`KeyError`/`TypeError` from sorting or field access propagate, as in the
source. -/
def save_data_to_csv (data : Collection) : Except PyErr (Option CsvOut) :=
  if data.isEmpty then .ok none
  else do
    let keyed ← exMapM (fun v => do
      let d ← pyItem v "issue_date"
      pure (d, v)) (data.map (fun p => p.2))
    let sortedVals ← sortValsByDate keyed
    let rows ← exMapM recordRow sortedVals
    pure (some ⟨csvHeader, rows⟩)

/-! ### HarvestOrchestrator: `scrape_redhat_errata`
(errata_report.py lines 126-283)

The Selenium/browser setup, cookie-consent handling and pacing delay do not
touch the data flow; the listing fetch is abstracted as the parsed row list
`rows` (`soup.select('table.rh-table > tbody > tr')`), the detail fetch and
the LLM call as oracle functions. -/

/-- An `<a>` tag of a listing cell: `tag.text`, and `tag['href']` which
raises `KeyError` when the attribute is missing. -/
structure ATag where
  text : String
  href : Option String

/-- One `<td>` cell: its text and the result of `cell.find('a')`. -/
structure RowCell where
  text : String
  link : Option ATag

/-- One listing row: its `<td>` cells. -/
abbrev ListingRow := List RowCell

/-- The fixed site base URL. -/
def base_url : String := "https://access.redhat.com"

/-- The record dict literal built for a new item (source lines 252-259),
fields in source order. -/
def mkRecord (errata_id cve_id severity issue_date original_synopsis summary : String) : Json :=
  .obj [("errata_id", .str errata_id), ("cve_id", .str cve_id),
        ("severity", .str severity), ("issue_date", .str issue_date),
        ("original_synopsis", .str original_synopsis), ("summary", .str summary)]

/-- Python `errata_id in existing_ids`, where `existing_ids` is the set of
keys of the loaded collection. -/
def idKnown (ids : List Json) (s : String) : Bool :=
  ids.any (fun k => pyKeyEq k (.str s))

/-- The mutable state of the scrape loop: `existing_data` and
`new_items_count`. -/
structure ScrapeState where
  data : Collection
  count : Nat

/-- The body of `for row in rows` (source lines 231-262).  Rows with fewer
than five cells or without a link in cell 0 are skipped (`continue`); known
ids are skipped; `new_items_count` is incremented *before* the fallible
part, so a row that then raises (missing `href`, or an uncaught exception
out of `summarize_with_llm`) is counted but adds nothing — the per-row
`except Exception` hands control to the next row. -/
def processRow (fetch : String → FetchResult)
    (llm_url api_token model : Option String) (post : String → PostResult)
    (existing_ids : List Json) (st : ScrapeState) (row : ListingRow) : ScrapeState :=
  match row with
  | c0 :: c1 :: c2 :: c3 :: _ :: _ =>
    match c0.link with
    | none => st
    | some tag =>
      let errata_id := pyStrip tag.text
      if idKnown existing_ids errata_id then st
      else
        let cnt := st.count + 1
        match tag.href with
        | none => { st with count := cnt }
        | some href =>
          let detail_page_url := base_url ++ href
          let synopsis := pyStrip c1.text
          let cve_id := get_cve_details (fetch detail_page_url)
          match summarize_with_llm synopsis llm_url api_token model (post synopsis) with
          | .error _ => { st with count := cnt }
          | .ok summary =>
            { data := dinsert (.str errata_id)
                (mkRecord errata_id cve_id (pyStrip c3.text) (pyStrip c2.text)
                  synopsis summary) st.data,
              count := cnt }
  | _ => st

/-- The whole listing loop. -/
def processRows (fetch : String → FetchResult)
    (llm_url api_token model : Option String) (post : String → PostResult)
    (existing_ids : List Json) (st : ScrapeState) (rows : List ListingRow) : ScrapeState :=
  rows.foldl (processRow fetch llm_url api_token model post existing_ids) st

/-- What one run observably does: final in-memory collection,
`new_items_count`, the JSON content written by `save_data_to_json` (if the
save branch ran), the CSV written (if reached), and whether the run reached
its normal end (`completed = false` covers both the empty-listing early
return and the outer `except Exception` path). -/
structure ScrapeOutcome where
  finalData : Collection
  newCount : Nat
  savedFile : Option Json
  csvOut : Option CsvOut
  completed : Bool

/-- `scrape_redhat_errata`, from `load_existing_data` (line 146, *outside*
the big `try`, so its exceptions propagate) through the row loop, the
conditional `save_data_to_json` (only when `new_items_count > 0`) and the
unconditional `save_data_to_csv`, whose uncaught exceptions are absorbed by
the outer `except Exception` (abort, after the save already happened). -/
def scrape_redhat_errata (fetch : String → FetchResult)
    (llm_url api_token model : Option String) (post : String → PostResult)
    (file : LoadFile) (rows : List ListingRow) : Except PyErr ScrapeOutcome := do
  let existing_data ← load_existing_data file
  let existing_ids := keys existing_data
  if rows.isEmpty then
    pure ⟨existing_data, 0, none, none, false⟩
  else
    let st := processRows fetch llm_url api_token model post existing_ids
      ⟨existing_data, 0⟩ rows
    let savedFile := if st.count > 0 then some (save_data_to_json st.data) else none
    match save_data_to_csv st.data with
    | .error _ => pure ⟨st.data, st.count, savedFile, none, false⟩
    | .ok csv => pure ⟨st.data, st.count, savedFile, csv, true⟩

/-! ### Supporting lemmas -/

theorem exbind_ok (a : α) (f : α → Except PyErr β) :
    (Except.ok a >>= f : Except PyErr β) = f a := rfl

theorem exbind_err (e : PyErr) (f : α → Except PyErr β) :
    (Except.error e >>= f : Except PyErr β) = .error e := rfl

/-- A string whose character data does not start with the tag
`"[AI 요약 생략] "` is not a tagged passthrough of anything. -/
theorem sentinel_ne_tagged {s : String}
    (hs : ¬ ("[AI 요약 생략] ".data <+: s.data)) (t : String) :
    s ≠ "[AI 요약 생략] " ++ t := by
  intro h
  exact hs ⟨t.data, by rw [← String.data_append, h]⟩

/-! ### Claim C6 -/

/-- Claim C6: with any of the three summarization options absent,
`summarize_with_llm` returns the tagged passthrough `"[AI 요약 생략] " ++ text`,
which contains the input verbatim, is non-empty, differs from the unmarked
input, and does not depend on the network oracle (no call is made). -/
theorem c6_degraded_passthrough (text : String)
    (llm_url api_token model : Option String) (post : PostResult)
    (h : llm_url = none ∨ api_token = none ∨ model = none) :
    summarize_with_llm text llm_url api_token model post
      = .ok ("[AI 요약 생략] " ++ text)
    ∧ "[AI 요약 생략] " ++ text ≠ ""
    ∧ "[AI 요약 생략] " ++ text ≠ text
    ∧ ∀ post2, summarize_with_llm text llm_url api_token model post2
        = summarize_with_llm text llm_url api_token model post := by
  have hfal : (falsy llm_url || falsy api_token || falsy model) = true := by
    rcases h with h | h | h <;> subst h <;> simp [falsy]
  have hlen : ("[AI 요약 생략] " : String).length = 11 := rfl
  refine ⟨by simp [summarize_with_llm, hfal], ?_, ?_, ?_⟩
  · intro he
    have h2 := congrArg String.length he
    rw [String.length_append, hlen] at h2
    simp at h2
  · intro he
    have h2 := congrArg String.length he
    rw [String.length_append, hlen] at h2
    omega
  · intro post2
    simp [summarize_with_llm, hfal]

/-- Witness for C6 at a concrete input. -/
theorem c6_degraded_passthrough_witness :
    summarize_with_llm "kernel: security update" none (some "tok") (some "mdl")
        .requestError
      = .ok ("[AI 요약 생략] " ++ "kernel: security update")
    ∧ "[AI 요약 생략] " ++ "kernel: security update" ≠ ""
    ∧ "[AI 요약 생략] " ++ "kernel: security update" ≠ "kernel: security update"
    ∧ ∀ post2, summarize_with_llm "kernel: security update" none (some "tok")
        (some "mdl") post2
        = summarize_with_llm "kernel: security update" none (some "tok") (some "mdl")
            .requestError :=
  c6_degraded_passthrough "kernel: security update" none (some "tok") (some "mdl")
    .requestError (Or.inl rfl)

/-! ### Claim C9 -/

/-- Claim C9 counterexample: with full configuration, (i) a response whose
JSON body is not a dict makes `summarize_with_llm` raise `AttributeError`
(only `RequestException`, `KeyError` and `IndexError` are caught), so
"returns (without raising)" fails; and (ii) a well-formed response whose
content text strips to `"AI 요약 실패"` yields a genuine extracted summary
equal to the request-failure sentinel, so the sentinel does not differ from
every genuine summary. -/
theorem c9_counterexample :
    summarize_with_llm "text" (some "http://llm") (some "tok") (some "mdl")
        (.success (.num 5)) = .error .attributeError
    ∧ summarize_with_llm "text" (some "http://llm") (some "tok") (some "mdl")
        (.success (.obj [("choices", .arr [.obj [("message",
          .obj [("content", .str " AI 요약 실패 ")])]])]))
        = .ok "AI 요약 실패"
    ∧ summarize_with_llm "text" (some "http://llm") (some "tok") (some "mdl")
        .requestError = .ok "AI 요약 실패" :=
  ⟨rfl, rfl, rfl⟩

/-- Claim C9 (amended): with full configuration, a request failure yields
the sentinel `"AI 요약 실패"`; a dict response without `choices` yields the
sentinel `"AI 요약 실패: 응답 형식 불일치"`; an empty `choices` list yields
`"AI 요약 실패"`; and both sentinels differ from the degraded passthrough of
every input.  (A non-dict response body raises, and a genuine summary may
coincide with a sentinel — see the counterexample.) -/
theorem c9_failure_sentinels (text : String)
    (llm_url api_token model : Option String)
    (hu : falsy llm_url = false) (ht : falsy api_token = false)
    (hm : falsy model = false) :
    summarize_with_llm text llm_url api_token model .requestError = .ok "AI 요약 실패"
    ∧ (∀ fields, lookupStr "choices" fields = none →
        summarize_with_llm text llm_url api_token model (.success (.obj fields))
          = .ok "AI 요약 실패: 응답 형식 불일치")
    ∧ (∀ fields, lookupStr "choices" fields = some (.arr []) →
        summarize_with_llm text llm_url api_token model (.success (.obj fields))
          = .ok "AI 요약 실패")
    ∧ (∀ t, "AI 요약 실패" ≠ "[AI 요약 생략] " ++ t)
    ∧ (∀ t, "AI 요약 실패: 응답 형식 불일치" ≠ "[AI 요약 생략] " ++ t) := by
  refine ⟨?_, ?_, ?_, sentinel_ne_tagged (by decide), sentinel_ne_tagged (by decide)⟩
  · simp [summarize_with_llm, hu, ht, hm]
  · intro fields hf
    simp [summarize_with_llm, hu, ht, hm, pyGet, hf, pyIndex0, pyStripJson,
      exbind_ok, exbind_err]
    rfl
  · intro fields hf
    simp [summarize_with_llm, hu, ht, hm, pyGet, hf, pyIndex0, exbind_ok, exbind_err]

/-- Witness for the amended C9 at a concrete input. -/
theorem c9_failure_sentinels_witness :
    summarize_with_llm "abc" (some "http://llm") (some "tok") (some "mdl")
        .requestError = .ok "AI 요약 실패"
    ∧ summarize_with_llm "abc" (some "http://llm") (some "tok") (some "mdl")
        (.success (.obj [])) = .ok "AI 요약 실패: 응답 형식 불일치" := by
  have h := c9_failure_sentinels "abc" (some "http://llm") (some "tok") (some "mdl")
    rfl rfl rfl
  exact ⟨h.1, h.2.1 [] rfl⟩

/-! ### Claim C5 -/

/-- Claim C5 counterexample: for a successfully fetched page with no
`section#cves` container but a matching CVE link in the body, the code
returns the "none found" sentinel, while the spec's "otherwise scan the
whole body" behaviour (`get_cve_details_specModel`) extracts the token. -/
theorem c5_counterexample :
    get_cve_details (.success ⟨none,
      [⟨"https://access.redhat.com/security/cve/CVE-2024-0001", "CVE-2024-0001"⟩]⟩)
      = "CVE 정보 없음"
    ∧ get_cve_details_specModel (.success ⟨none,
      [⟨"https://access.redhat.com/security/cve/CVE-2024-0001", "CVE-2024-0001"⟩]⟩)
      = "CVE-2024-0001"
    ∧ ("CVE 정보 없음" : String) ≠ "CVE-2024-0001" :=
  ⟨rfl, rfl, by decide⟩

/-- The identifier tokens the code extracts from a link list: text of the
links whose `href` matches the CVE-URL pattern, stripped. -/
def extractedToks (links : List ALink) : List String :=
  (links.filter (fun a => strContainsB a.href cveHrefPat)).map (fun a => pyStrip a.text)

/-- Claim C5 (amended): extraction is restricted to the `section#cves`
container; when the container is absent the sentinel is returned without
scanning the body; when it is present the result is the comma-join of a
sorted duplicate-free list with exactly the extracted tokens as elements,
or the sentinel exactly when that token set is empty. -/
theorem c5_section_only_extraction (links body : List ALink) :
    get_cve_details (.success ⟨none, body⟩) = "CVE 정보 없음"
    ∧ ∃ l : List String,
        l.Pairwise (fun a b => strLe a b = true)
        ∧ l.Nodup
        ∧ (∀ s, s ∈ l ↔ s ∈ extractedToks links)
        ∧ get_cve_details (.success ⟨some links, body⟩)
            = (if l.isEmpty then "CVE 정보 없음" else joinComma l) := by
  refine ⟨rfl, ssort strLe (dedupStr (extractedToks links)), ?_, ?_, ?_, ?_⟩
  · exact ssort_pairwise strLe (fun a b c h1 h2 => strLe_trans h1 h2) strLe_total _
  · exact (ssort_perm strLe _).symm.nodup (nodup_dedupStr _)
  · intro s
    rw [(ssort_perm strLe _).mem_iff, mem_dedupStr]
  · cases hf : links.filter (fun a => strContainsB a.href cveHrefPat) with
    | nil =>
      have htoks : extractedToks links = [] := by simp [extractedToks, hf]
      simp [get_cve_details, hf, htoks, dedupStr, ssort]
    | cons a rest =>
      have htoks : pyStrip a.text ∈ extractedToks links := by
        simp [extractedToks, hf]
      have hne : ssort strLe (dedupStr (extractedToks links)) ≠ [] := by
        intro he
        have hmem : pyStrip a.text ∈ ssort strLe (dedupStr (extractedToks links)) := by
          rw [(ssort_perm strLe _).mem_iff, mem_dedupStr]
          exact htoks
        rw [he] at hmem
        simp at hmem
      have key : ∀ xs : List String, xs ≠ [] →
          joinComma xs = if xs.isEmpty then "CVE 정보 없음" else joinComma xs := by
        intro xs hxs
        cases xs with
        | nil => exact absurd rfl hxs
        | cons x t => rfl
      have hstep : get_cve_details (.success ⟨some links, body⟩)
          = joinComma (ssort strLe (dedupStr (extractedToks links))) := by
        simp only [get_cve_details, extractedToks]
        rw [hf]
        rfl
      rw [hstep]
      exact key _ hne

/-! ### Claim C4 -/

/-- Claim C4 counterexample: a persisted file whose JSON content is the
list `[5]` makes `load_existing_data` raise `TypeError` (CPython:
`'errata_id' in 5` — an int is not iterable; only `JSONDecodeError` and
`IOError` are caught), so load does not return for every store-file state. -/
theorem c4_counterexample :
    load_existing_data (.content (.arr [.num 5])) = .error .typeError := rfl

/-- An entry of a legacy list store that the dict comprehension can process
without raising: a JSON object whose `errata_id` value — when present — is
hashable. -/
def okItemB : Json → Bool
  | .obj fields =>
    (match lookupStr "errata_id" fields with
     | some v => hashB v
     | none => true)
  | _ => false

/-- The record the comprehension keeps for key `k`: the *last* list entry
whose `errata_id` equals `k` (later duplicates overwrite earlier ones). -/
def lastWithId (items : List Json) (k : Json) : Option Json :=
  match items with
  | [] => none
  | item :: rest =>
    match lastWithId rest k with
    | some v => some v
    | none =>
      match item with
      | .obj fields =>
        (match lookupStr "errata_id" fields with
         | some idv => if pyKeyEq idv k then some item else none
         | none => none)
      | _ => none

theorem any_key_eq_isSome (fields : List (String × Json)) :
    (fields.any (fun p => p.1 == "errata_id")) = (lookupStr "errata_id" fields).isSome := by
  induction fields with
  | nil => rfl
  | cons p rest ih =>
    obtain ⟨k, v⟩ := p
    by_cases h : k = "errata_id"
    · simp [lookupStr, h]
    · simp [lookupStr, h, ih]

theorem asKey_of_hashB {v : Json} (h : hashB v = true) : asKey v = .ok v := by
  cases v <;> simp [hashB] at h <;> rfl

theorem convertListAux_ok (items : List Json) (hok : items.all okItemB = true) :
    ∀ acc : Collection, ∃ coll, convertListAux acc items = .ok coll
      ∧ ∀ k, dlookup k coll
          = (match lastWithId items k with
             | some v => some v
             | none => dlookup k acc) := by
  induction items with
  | nil =>
    intro acc
    exact ⟨acc, rfl, fun k => by simp [lastWithId]⟩
  | cons item rest ih =>
    intro acc
    simp only [List.all_cons, Bool.and_eq_true] at hok
    obtain ⟨hitem, hrest⟩ := hok
    match item with
    | .obj fields =>
      simp only [okItemB] at hitem
      cases hl : lookupStr "errata_id" fields with
      | some idv =>
        rw [hl] at hitem
        have hkey : asKey idv = .ok idv := asKey_of_hashB hitem
        obtain ⟨coll, hcoll, hlk⟩ := ih hrest (dinsert idv (.obj fields) acc)
        refine ⟨coll, ?_, ?_⟩
        · simp [convertListAux, hasIdKeyB, any_key_eq_isSome, hl, getIdVal, hkey, hcoll,
            exbind_ok, exbind_err]
        · intro k
          rw [hlk k, dlookup_dinsert]
          cases hr : lastWithId rest k with
          | some v => simp [lastWithId, hr]
          | none =>
            by_cases hpk : pyKeyEq idv k
            · simp [lastWithId, hr, hl, hpk]
            · simp only [Bool.not_eq_true] at hpk
              simp [lastWithId, hr, hl, hpk]
      | none =>
        rw [hl] at hitem
        obtain ⟨coll, hcoll, hlk⟩ := ih hrest acc
        refine ⟨coll, ?_, ?_⟩
        · simp [convertListAux, hasIdKeyB, any_key_eq_isSome, hl, hcoll,
            exbind_ok, exbind_err]
        · intro k
          rw [hlk k]
          cases hr : lastWithId rest k with
          | some v => simp [lastWithId, hr]
          | none => simp [lastWithId, hr, hl]

/-- Claim C4 (amended): an absent file, an `IOError`, an undecodable file,
and parsed content that is neither a list nor a dict all yield the empty
collection without raising; parsed dict content is returned keyed as-is;
and a parsed list whose entries are objects with hashable ids converts —
without raising — to the mapping that keys each object by its `errata_id`,
dropping entries lacking one (later duplicates overwriting earlier ones).
A list with other entries can raise `TypeError` (see the counterexample). -/
theorem c4_load_shapes (items : List Json) (hok : items.all okItemB = true) :
    load_existing_data .absent = .ok []
    ∧ load_existing_data .ioError = .ok []
    ∧ load_existing_data .undecodable = .ok []
    ∧ (∀ s, load_existing_data (.content (.str s)) = .ok [])
    ∧ (∀ n, load_existing_data (.content (.num n)) = .ok [])
    ∧ (∀ b, load_existing_data (.content (.bool b)) = .ok [])
    ∧ load_existing_data (.content .null) = .ok []
    ∧ (∀ fields, load_existing_data (.content (.obj fields))
        = .ok (fields.map (fun p => (Json.str p.1, p.2))))
    ∧ ∃ coll, load_existing_data (.content (.arr items)) = .ok coll
        ∧ ∀ k, dlookup k coll = lastWithId items k := by
  obtain ⟨coll, hcoll, hlk⟩ := convertListAux_ok items hok []
  refine ⟨rfl, rfl, rfl, fun s => rfl, fun n => rfl, fun b => rfl, rfl, fun fields => rfl,
    coll, hcoll, ?_⟩
  intro k
  rw [hlk k]
  cases lastWithId items k <;> simp [dlookup]

/-- Witness for the amended C4: a two-entry legacy list, one entry keyed,
one (lacking an id) dropped. -/
theorem c4_load_shapes_witness :
    ([Json.obj [("errata_id", .str "RHSA-2024:0001"), ("cve_id", .null)],
      Json.obj [("note", .str "no id")]].all okItemB = true)
    ∧ ∃ coll, load_existing_data (.content (.arr
        [Json.obj [("errata_id", .str "RHSA-2024:0001"), ("cve_id", .null)],
         Json.obj [("note", .str "no id")]])) = .ok coll
        ∧ ∀ k, dlookup k coll
            = lastWithId [Json.obj [("errata_id", .str "RHSA-2024:0001"), ("cve_id", .null)],
                Json.obj [("note", .str "no id")]] k := by
  have h := c4_load_shapes
    [Json.obj [("errata_id", .str "RHSA-2024:0001"), ("cve_id", .null)],
     Json.obj [("note", .str "no id")]] rfl
  exact ⟨rfl, h.2.2.2.2.2.2.2.2⟩

/-! ### Claim C8 -/

/-- Claim C8: per-row processing never leaves a partial record — the state
after a row is either unchanged (structural skip, known id, or an exception
caught by the per-row handler) or extended with one fully-built six-field
record — and the loop always continues with the remaining rows. -/
theorem c8_row_errors_scoped (fetch : String → FetchResult)
    (llm_url api_token model : Option String) (post : String → PostResult)
    (existing_ids : List Json) (st : ScrapeState) (row : ListingRow) :
    ((processRow fetch llm_url api_token model post existing_ids st row).data = st.data
      ∨ ∃ id cve sev date syn sum,
          (processRow fetch llm_url api_token model post existing_ids st row).data
            = dinsert (.str id) (mkRecord id cve sev date syn sum) st.data)
    ∧ ∀ rest, processRows fetch llm_url api_token model post existing_ids st (row :: rest)
        = processRows fetch llm_url api_token model post existing_ids
            (processRow fetch llm_url api_token model post existing_ids st row) rest := by
  refine ⟨?_, fun rest => rfl⟩
  rcases row with _ | ⟨c0, _ | ⟨c1, _ | ⟨c2, _ | ⟨c3, _ | ⟨c4, rest2⟩⟩⟩⟩⟩
  · left; rfl
  · left; rfl
  · left; rfl
  · left; rfl
  · left; rfl
  · cases hl : c0.link with
    | none => left; simp [processRow, hl]
    | some tag =>
      cases hk : idKnown existing_ids (pyStrip tag.text) with
      | true => left; simp [processRow, hl, hk]
      | false =>
        cases hh : tag.href with
        | none => left; simp [processRow, hl, hk, hh]
        | some href =>
          cases hs : summarize_with_llm (pyStrip c1.text) llm_url api_token model
              (post (pyStrip c1.text)) with
          | error e => left; simp [processRow, hl, hk, hh, hs]
          | ok summary =>
            right
            refine ⟨pyStrip tag.text, get_cve_details (fetch (base_url ++ href)),
              pyStrip c3.text, pyStrip c2.text, pyStrip c1.text, summary, ?_⟩
            simp [processRow, hl, hk, hh, hs]

/-! ### Orchestrator lemmas -/

/-- Characterization of one loop iteration: a row either leaves the state
unchanged, or adds one freshly-built record under an id that was not in
`existing_ids` (incrementing the counter), or only increments the counter
(a counted row whose fallible part raised and was caught). -/
theorem processRow_result (fetch : String → FetchResult)
    (llm_url api_token model : Option String) (post : String → PostResult)
    (existing_ids : List Json) (st : ScrapeState) (row : ListingRow) :
    processRow fetch llm_url api_token model post existing_ids st row = st
    ∨ (∃ s cve sev date syn sum, idKnown existing_ids s = false
        ∧ processRow fetch llm_url api_token model post existing_ids st row
          = ⟨dinsert (.str s) (mkRecord s cve sev date syn sum) st.data, st.count + 1⟩)
    ∨ processRow fetch llm_url api_token model post existing_ids st row
        = ⟨st.data, st.count + 1⟩ := by
  rcases row with _ | ⟨c0, _ | ⟨c1, _ | ⟨c2, _ | ⟨c3, _ | ⟨c4, rest2⟩⟩⟩⟩⟩
  · left; rfl
  · left; rfl
  · left; rfl
  · left; rfl
  · left; rfl
  · cases hl : c0.link with
    | none => left; simp [processRow, hl]
    | some tag =>
      cases hk : idKnown existing_ids (pyStrip tag.text) with
      | true => left; simp [processRow, hl, hk]
      | false =>
        cases hh : tag.href with
        | none => right; right; simp [processRow, hl, hk, hh]
        | some href =>
          cases hs : summarize_with_llm (pyStrip c1.text) llm_url api_token model
              (post (pyStrip c1.text)) with
          | error e => right; right; simp [processRow, hl, hk, hh, hs]
          | ok summary =>
            right; left
            refine ⟨pyStrip tag.text, get_cve_details (fetch (base_url ++ href)),
              pyStrip c3.text, pyStrip c2.text, pyStrip c1.text, summary, hk, ?_⟩
            simp [processRow, hl, hk, hh, hs]

/-- A row all of whose parsed external id (if any) is already known is a
no-op. -/
def rowKnownB (ids : List Json) (row : ListingRow) : Bool :=
  match row with
  | c0 :: _ :: _ :: _ :: _ :: _ =>
    (match c0.link with
     | some tag => idKnown ids (pyStrip tag.text)
     | none => true)
  | _ => true

/-- Every row of the listing whose id parses is already known. -/
def allParsedKnownB (ids : List Json) (rows : List ListingRow) : Bool :=
  rows.all (rowKnownB ids)

theorem processRow_skip (fetch : String → FetchResult)
    (llm_url api_token model : Option String) (post : String → PostResult)
    (existing_ids : List Json) (st : ScrapeState) (row : ListingRow)
    (h : rowKnownB existing_ids row = true) :
    processRow fetch llm_url api_token model post existing_ids st row = st := by
  rcases row with _ | ⟨c0, _ | ⟨c1, _ | ⟨c2, _ | ⟨c3, _ | ⟨c4, rest2⟩⟩⟩⟩⟩
  · rfl
  · rfl
  · rfl
  · rfl
  · rfl
  · cases hl : c0.link with
    | none => simp [processRow, hl]
    | some tag =>
      simp only [rowKnownB, hl] at h
      simp [processRow, hl, h]

theorem idKnown_of_mem {existing_ids : List Json} {k : Json} {s : String}
    (hk : k ∈ existing_ids) (he : pyKeyEq (.str s) k = true) :
    idKnown existing_ids s = true := by
  have hks := pyKeyEq_eq he
  rw [← hks] at hk
  exact List.any_eq_true.mpr ⟨.str s, hk, by simp [pyKeyEq]⟩

theorem processRows_preserves_known (fetch : String → FetchResult)
    (llm_url api_token model : Option String) (post : String → PostResult)
    (existing_ids : List Json) :
    ∀ (rows : List ListingRow) (st : ScrapeState) (k : Json), k ∈ existing_ids →
      dlookup k (processRows fetch llm_url api_token model post existing_ids st rows).data
        = dlookup k st.data := by
  intro rows
  induction rows with
  | nil => intro st k _; rfl
  | cons row rest ih =>
    intro st k hk
    have hstep : dlookup k (processRow fetch llm_url api_token model post
        existing_ids st row).data = dlookup k st.data := by
      rcases processRow_result fetch llm_url api_token model post existing_ids st row with
        h | ⟨s, cve, sev, date, syn, sum, hks, h⟩ | h
      · rw [h]
      · rw [h]
        show dlookup k (dinsert (.str s) _ st.data) = dlookup k st.data
        rw [dlookup_dinsert]
        have hne : pyKeyEq (.str s) k = false := by
          cases hpk : pyKeyEq (.str s) k
          · rfl
          · exact absurd (idKnown_of_mem hk hpk) (by simp [hks])
        simp [hne]
      · rw [h]
    calc dlookup k (processRows fetch llm_url api_token model post existing_ids st
            (row :: rest)).data
        = dlookup k (processRows fetch llm_url api_token model post existing_ids
            (processRow fetch llm_url api_token model post existing_ids st row) rest).data := rfl
      _ = dlookup k (processRow fetch llm_url api_token model post existing_ids st row).data :=
          ih _ k hk
      _ = dlookup k st.data := hstep

theorem processRows_keys_mono (fetch : String → FetchResult)
    (llm_url api_token model : Option String) (post : String → PostResult)
    (existing_ids : List Json) :
    ∀ (rows : List ListingRow) (st : ScrapeState) (k : Json), k ∈ keys st.data →
      k ∈ keys (processRows fetch llm_url api_token model post existing_ids st rows).data := by
  intro rows
  induction rows with
  | nil => intro st k hk; exact hk
  | cons row rest ih =>
    intro st k hk
    have hstep : k ∈ keys (processRow fetch llm_url api_token model post
        existing_ids st row).data := by
      rcases processRow_result fetch llm_url api_token model post existing_ids st row with
        h | ⟨s, cve, sev, date, syn, sum, hks, h⟩ | h
      · rw [h]; exact hk
      · rw [h]; exact mem_keys_dinsert _ _ hk
      · rw [h]; exact hk
    exact ih _ k hstep

theorem processRows_count_mono (fetch : String → FetchResult)
    (llm_url api_token model : Option String) (post : String → PostResult)
    (existing_ids : List Json) :
    ∀ (rows : List ListingRow) (st : ScrapeState),
      st.count ≤ (processRows fetch llm_url api_token model post existing_ids st rows).count := by
  intro rows
  induction rows with
  | nil => intro st; exact Nat.le_refl _
  | cons row rest ih =>
    intro st
    have hstep : st.count ≤ (processRow fetch llm_url api_token model post
        existing_ids st row).count := by
      rcases processRow_result fetch llm_url api_token model post existing_ids st row with
        h | ⟨s, cve, sev, date, syn, sum, hks, h⟩ | h
      · rw [h]
      · rw [h]; exact Nat.le_succ _
      · rw [h]; exact Nat.le_succ _
    exact Nat.le_trans hstep (ih _)

theorem processRows_id_of_count_eq (fetch : String → FetchResult)
    (llm_url api_token model : Option String) (post : String → PostResult)
    (existing_ids : List Json) :
    ∀ (rows : List ListingRow) (st : ScrapeState),
      (processRows fetch llm_url api_token model post existing_ids st rows).count = st.count →
      processRows fetch llm_url api_token model post existing_ids st rows = st := by
  intro rows
  induction rows with
  | nil => intro st _; rfl
  | cons row rest ih =>
    intro st hc
    have heq : processRow fetch llm_url api_token model post existing_ids st row = st := by
      rcases processRow_result fetch llm_url api_token model post existing_ids st row with
        h | ⟨s, cve, sev, date, syn, sum, hks, h⟩ | h
      · exact h
      · exfalso
        have h1 := processRows_count_mono fetch llm_url api_token model post existing_ids
          rest (processRow fetch llm_url api_token model post existing_ids st row)
        rw [h] at h1
        have h2 : (processRows fetch llm_url api_token model post existing_ids st
            (row :: rest)).count
            = (processRows fetch llm_url api_token model post existing_ids
                (processRow fetch llm_url api_token model post existing_ids st row)
                rest).count := rfl
        rw [h2, h] at hc
        simp at h1
        omega
      · exfalso
        have h1 := processRows_count_mono fetch llm_url api_token model post existing_ids
          rest (processRow fetch llm_url api_token model post existing_ids st row)
        rw [h] at h1
        have h2 : (processRows fetch llm_url api_token model post existing_ids st
            (row :: rest)).count
            = (processRows fetch llm_url api_token model post existing_ids
                (processRow fetch llm_url api_token model post existing_ids st row)
                rest).count := rfl
        rw [h2, h] at hc
        simp at h1
        omega
    have h3 : processRows fetch llm_url api_token model post existing_ids st (row :: rest)
        = processRows fetch llm_url api_token model post existing_ids
            (processRow fetch llm_url api_token model post existing_ids st row) rest := rfl
    rw [h3, heq] at hc ⊢
    exact ih st hc

theorem processRows_skip_all (fetch : String → FetchResult)
    (llm_url api_token model : Option String) (post : String → PostResult)
    (existing_ids : List Json) :
    ∀ (rows : List ListingRow) (st : ScrapeState),
      allParsedKnownB existing_ids rows = true →
      processRows fetch llm_url api_token model post existing_ids st rows = st := by
  intro rows
  induction rows with
  | nil => intro st _; rfl
  | cons row rest ih =>
    intro st hall
    simp only [allParsedKnownB, List.all_cons, Bool.and_eq_true] at hall
    have h3 : processRows fetch llm_url api_token model post existing_ids st (row :: rest)
        = processRows fetch llm_url api_token model post existing_ids
            (processRow fetch llm_url api_token model post existing_ids st row) rest := rfl
    rw [h3, processRow_skip fetch llm_url api_token model post existing_ids st row hall.1]
    exact ih st hall.2

/-! ### Dict-invariant lemmas -/

theorem not_contains_forall {k : Json} {data : Collection}
    (h : containsKeyB k data = false) :
    ∀ k1 ∈ keys data, pyKeyEq k1 k = false := by
  intro k1 hk1
  simp only [containsKeyB, List.any_eq_false] at h
  obtain ⟨p, hp, hpk⟩ := List.mem_map.mp hk1
  rw [← hpk]
  exact Bool.eq_false_iff.mpr (h p hp)

theorem distinctKeys_append_single :
    ∀ {ks : List Json} {k : Json}, distinctKeysB ks = true →
      (∀ k1 ∈ ks, pyKeyEq k1 k = false) → distinctKeysB (ks ++ [k]) = true := by
  intro ks
  induction ks with
  | nil => intro k _ _; rfl
  | cons k0 rest ih =>
    intro k hd hne
    simp only [distinctKeysB, Bool.and_eq_true] at hd
    obtain ⟨h1, h2⟩ := hd
    simp only [List.cons_append, distinctKeysB, Bool.and_eq_true]
    refine ⟨?_, ih h2 (fun k1 h => hne k1 (by simp [h]))⟩
    rw [show rest.append [k] = rest ++ [k] from rfl, List.all_append]
    simp only [Bool.and_eq_true]
    refine ⟨h1, ?_⟩
    simp [hne k0 (by simp)]

theorem keys_dinsert_not_contains {k : Json} {data : Collection} (v : Json)
    (h : containsKeyB k data = false) :
    keys (dinsert k v data) = keys data ++ [k] := by
  rw [dinsert_of_not_contains v h]
  simp [keys]

theorem distinctKeysB_dinsert {data : Collection} {k v : Json}
    (hd : distinctKeysB (keys data) = true) :
    distinctKeysB (keys (dinsert k v data)) = true := by
  cases hc : containsKeyB k data
  · rw [keys_dinsert_not_contains v hc]
    exact distinctKeys_append_single hd (not_contains_forall hc)
  · rw [keys_dinsert_contains v hc]
    exact hd

theorem processRows_distinct (fetch : String → FetchResult)
    (llm_url api_token model : Option String) (post : String → PostResult)
    (existing_ids : List Json) :
    ∀ (rows : List ListingRow) (st : ScrapeState),
      distinctKeysB (keys st.data) = true →
      distinctKeysB (keys (processRows fetch llm_url api_token model post
        existing_ids st rows).data) = true := by
  intro rows
  induction rows with
  | nil => intro st hd; exact hd
  | cons row rest ih =>
    intro st hd
    have hstep : distinctKeysB (keys (processRow fetch llm_url api_token model post
        existing_ids st row).data) = true := by
      rcases processRow_result fetch llm_url api_token model post existing_ids st row with
        h | ⟨s, cve, sev, date, syn, sum, hks, h⟩ | h
      · rw [h]; exact hd
      · rw [h]; exact distinctKeysB_dinsert hd
      · rw [h]; exact hd
    exact ih _ hstep

/-! ### Unfolding `scrape_redhat_errata` -/

theorem scrape_empty (fetch : String → FetchResult)
    (llm_url api_token model : Option String) (post : String → PostResult)
    (file : LoadFile) (data0 : Collection)
    (h0 : load_existing_data file = .ok data0) :
    scrape_redhat_errata fetch llm_url api_token model post file []
      = .ok ⟨data0, 0, none, none, false⟩ := by
  unfold scrape_redhat_errata
  rw [h0]
  rfl

theorem scrape_spec (fetch : String → FetchResult)
    (llm_url api_token model : Option String) (post : String → PostResult)
    (file : LoadFile) (rows : List ListingRow) (data0 : Collection)
    (h0 : load_existing_data file = .ok data0) (hne : rows ≠ []) :
    ∃ csv completed,
      scrape_redhat_errata fetch llm_url api_token model post file rows
        = .ok ⟨(processRows fetch llm_url api_token model post (keys data0)
                  ⟨data0, 0⟩ rows).data,
               (processRows fetch llm_url api_token model post (keys data0)
                  ⟨data0, 0⟩ rows).count,
               (if (processRows fetch llm_url api_token model post (keys data0)
                  ⟨data0, 0⟩ rows).count > 0
                then some (save_data_to_json (processRows fetch llm_url api_token model post
                  (keys data0) ⟨data0, 0⟩ rows).data)
                else none),
               csv, completed⟩ := by
  unfold scrape_redhat_errata
  rw [h0, exbind_ok]
  have hie : rows.isEmpty = false := by
    cases rows with
    | nil => exact absurd rfl hne
    | cons a b => rfl
  rw [hie]
  cases hcsv : save_data_to_csv (processRows fetch llm_url api_token model post (keys data0)
      ⟨data0, 0⟩ rows).data with
  | error e => exact ⟨none, false, by simp only [hcsv]; rfl⟩
  | ok csv => exact ⟨csv, true, by simp only [hcsv]; rfl⟩

/-! ### Claim C2 -/

/-- Claim C2: for every completed run, every id present in the loaded
collection is still present afterwards, and its stored value is unchanged
(the skip branch never deletes or overwrites a loaded record); processing
only adds entries under new ids. -/
theorem c2_append_only (fetch : String → FetchResult)
    (llm_url api_token model : Option String) (post : String → PostResult)
    (file : LoadFile) (rows : List ListingRow) (data0 : Collection)
    (out : ScrapeOutcome)
    (h0 : load_existing_data file = .ok data0)
    (h : scrape_redhat_errata fetch llm_url api_token model post file rows = .ok out) :
    (∀ k, k ∈ keys data0 → k ∈ keys out.finalData)
    ∧ ∀ k, k ∈ keys data0 → dlookup k out.finalData = dlookup k data0 := by
  cases rows with
  | nil =>
    rw [scrape_empty fetch llm_url api_token model post file data0 h0] at h
    injection h with h
    subst h
    exact ⟨fun k hk => hk, fun k _ => rfl⟩
  | cons r rs =>
    obtain ⟨csv, completed, hspec⟩ :=
      scrape_spec fetch llm_url api_token model post file (r :: rs) data0 h0 (by simp)
    rw [hspec] at h
    injection h with h
    subst h
    constructor
    · intro k hk
      exact processRows_keys_mono fetch llm_url api_token model post (keys data0)
        (r :: rs) ⟨data0, 0⟩ k hk
    · intro k hk
      exact processRows_preserves_known fetch llm_url api_token model post (keys data0)
        (r :: rs) ⟨data0, 0⟩ k hk

/-! ### Claim C3 -/

/-- A constant failing detail-fetch oracle (every claim about the loop is
independent of the oracle's answers). -/
def fetchFail : String → FetchResult := fun _ => .failure

/-- A constant failing LLM oracle. -/
def postFail : String → PostResult := fun _ => .requestError

/-- First occurrence of the duplicated listing id. -/
def listingRowDupA : ListingRow :=
  [⟨"", some ⟨"RHSA-2024:0001", some "/errata/RHSA-2024:0001"⟩⟩,
   ⟨"syn A", none⟩, ⟨"2024-01-01", none⟩, ⟨"Important", none⟩, ⟨"", none⟩]

/-- Second occurrence of the duplicated listing id, with different cell
contents. -/
def listingRowDupB : ListingRow :=
  [⟨"", some ⟨"RHSA-2024:0001", some "/errata/RHSA-2024:0001"⟩⟩,
   ⟨"syn B", none⟩, ⟨"2024-01-02", none⟩, ⟨"Moderate", none⟩, ⟨"", none⟩]

/-- The outcome of running the scrape on the duplicated listing from an
absent store. -/
def dupOutcome : ScrapeOutcome :=
  ⟨[(.str "RHSA-2024:0001",
     mkRecord "RHSA-2024:0001" "상세 확인 실패" "Moderate" "2024-01-02" "syn B"
       "[AI 요약 생략] syn B")],
   2,
   some (.arr [mkRecord "RHSA-2024:0001" "상세 확인 실패" "Moderate" "2024-01-02" "syn B"
     "[AI 요약 생략] syn B"]),
   some ⟨csvHeader,
     [[.str "RHSA-2024:0001", .str "상세 확인 실패", .str "Moderate", .str "2024-01-02",
       .str "syn B", .str "[AI 요약 생략] syn B"]]⟩,
   true⟩

/-- Claim C3 counterexample: the code never adds a processed id to the
known-id set (`existing_ids` is fixed before the loop), so a listing that
carries the same externalId twice is *not* skipped at its second
occurrence: both occurrences are processed (`newCount = 2`, with
DetailFetcher and Summarizer driven each time), and the surviving record is
the second occurrence's (synopsis `"syn B"`, not `"syn A"`), overwriting
the first. -/
theorem c3_counterexample :
    scrape_redhat_errata fetchFail none none none postFail .absent
      [listingRowDupA, listingRowDupB] = .ok dupOutcome
    ∧ dupOutcome.newCount = 2
    ∧ dupOutcome.finalData
        = [(.str "RHSA-2024:0001",
            mkRecord "RHSA-2024:0001" "상세 확인 실패" "Moderate" "2024-01-02" "syn B"
              "[AI 요약 생략] syn B")] :=
  ⟨rfl, rfl, rfl⟩

/-- Claim C3 (amended): a row duplicated within one listing is fully
reprocessed and counted again, but because the collection is keyed by id,
at most one record per id remains: key distinctness of the collection is
preserved by every run. -/
theorem c3_single_record_per_id (fetch : String → FetchResult)
    (llm_url api_token model : Option String) (post : String → PostResult)
    (file : LoadFile) (rows : List ListingRow) (data0 : Collection)
    (out : ScrapeOutcome)
    (h0 : load_existing_data file = .ok data0)
    (h : scrape_redhat_errata fetch llm_url api_token model post file rows = .ok out)
    (hd : distinctKeysB (keys data0) = true) :
    distinctKeysB (keys out.finalData) = true := by
  cases rows with
  | nil =>
    rw [scrape_empty fetch llm_url api_token model post file data0 h0] at h
    injection h with h
    subst h
    exact hd
  | cons r rs =>
    obtain ⟨csv, completed, hspec⟩ :=
      scrape_spec fetch llm_url api_token model post file (r :: rs) data0 h0 (by simp)
    rw [hspec] at h
    injection h with h
    subst h
    exact processRows_distinct fetch llm_url api_token model post (keys data0)
      (r :: rs) ⟨data0, 0⟩ hd

/-- Witness for the amended C3 on the duplicated listing. -/
theorem c3_single_record_per_id_witness :
    distinctKeysB (keys dupOutcome.finalData) = true :=
  c3_single_record_per_id fetchFail none none none postFail .absent
    [listingRowDupA, listingRowDupB] [] dupOutcome rfl rfl rfl

/-- A listing row with a fresh id, used by several witnesses. -/
def newListingRow : ListingRow :=
  [⟨"", some ⟨"RHSA-2024:1111", some "/errata/RHSA-2024:1111"⟩⟩,
   ⟨"kernel update", none⟩, ⟨"2024-05-05", none⟩, ⟨"Important", none⟩, ⟨"", none⟩]

/-- A record already persisted before the witness runs. -/
def oldStoredRec : Json :=
  mkRecord "OLD-1" "CVE 정보 없음" "Low" "2024-01-01" "old syn" "old sum"

/-- The outcome of the C2 witness run (one known record, one new row). -/
def c2Out : ScrapeOutcome :=
  match scrape_redhat_errata fetchFail none none none postFail
      (.content (.obj [("OLD-1", oldStoredRec)])) [newListingRow] with
  | .ok o => o
  | .error _ => ⟨[], 0, none, none, false⟩

/-- Witness for C2: the pre-existing id `OLD-1` is still a key after the
run and its value is untouched. -/
theorem c2_append_only_witness :
    Json.str "OLD-1" ∈ keys c2Out.finalData
    ∧ dlookup (Json.str "OLD-1") c2Out.finalData
        = dlookup (Json.str "OLD-1") [(.str "OLD-1", oldStoredRec)] := by
  have h := c2_append_only fetchFail none none none postFail
    (.content (.obj [("OLD-1", oldStoredRec)])) [newListingRow]
    [(.str "OLD-1", oldStoredRec)] c2Out rfl rfl
  exact ⟨h.1 _ (by simp [keys]), h.2 _ (by simp [keys])⟩

/-! ### Store well-formedness and the save/load round trip -/

/-- A well-formed stored pair: the value is an object whose `errata_id`
field equals the key, and the key is hashable. -/
def wfPairB (p : Json × Json) : Bool :=
  match p.2 with
  | .obj fields =>
    (match lookupStr "errata_id" fields with
     | some idv => pyKeyEq idv p.1 && hashB p.1
     | none => false)
  | _ => false

/-- A well-formed store: every record carries an `errata_id` equal to its
key, and keys are pairwise distinct (the `dict` invariant). -/
def wfStoreB (data : Collection) : Bool :=
  data.all wfPairB && distinctKeysB (keys data)

theorem wfPairB_mkRecord (s cve sev date syn sum : String) :
    wfPairB (.str s, mkRecord s cve sev date syn sum) = true := by
  simp [wfPairB, mkRecord, lookupStr, pyKeyEq, hashB]

theorem all_wfPair_dinsert {data : Collection} {k v : Json}
    (hall : data.all wfPairB = true) (hp : wfPairB (k, v) = true) :
    (dinsert k v data).all wfPairB = true := by
  induction data with
  | nil => simp [dinsert, hp]
  | cons q rest ih =>
    obtain ⟨k1, v1⟩ := q
    simp only [List.all_cons, Bool.and_eq_true] at hall
    obtain ⟨h1, h2⟩ := hall
    cases hpk : pyKeyEq k1 k with
    | true =>
      have hk : k1 = k := pyKeyEq_eq hpk
      subst hk
      simp [dinsert, hpk, hp, h2]
    | false =>
      simp [dinsert, hpk, h1, ih h2]

theorem processRows_wf (fetch : String → FetchResult)
    (llm_url api_token model : Option String) (post : String → PostResult)
    (existing_ids : List Json) :
    ∀ (rows : List ListingRow) (st : ScrapeState),
      wfStoreB st.data = true →
      wfStoreB (processRows fetch llm_url api_token model post
        existing_ids st rows).data = true := by
  intro rows
  induction rows with
  | nil => intro st h; exact h
  | cons row rest ih =>
    intro st h
    have hstep : wfStoreB (processRow fetch llm_url api_token model post
        existing_ids st row).data = true := by
      rcases processRow_result fetch llm_url api_token model post existing_ids st row with
        hr | ⟨s, cve, sev, date, syn, sum, hks, hr⟩ | hr
      · rw [hr]; exact h
      · rw [hr]
        simp only [wfStoreB, Bool.and_eq_true] at h ⊢
        exact ⟨all_wfPair_dinsert h.1 (wfPairB_mkRecord s cve sev date syn sum),
          distinctKeysB_dinsert h.2⟩
      · rw [hr]; exact h
    exact ih _ hstep

theorem containsKeyB_append (k : Json) (a b : Collection) :
    containsKeyB k (a ++ b) = (containsKeyB k a || containsKeyB k b) := by
  simp [containsKeyB, List.any_append]

theorem convertListAux_roundtrip :
    ∀ (data acc : Collection),
      data.all wfPairB = true →
      distinctKeysB (keys data) = true →
      (∀ k1 ∈ keys data, containsKeyB k1 acc = false) →
      convertListAux acc (data.map (fun p => p.2)) = .ok (acc ++ data) := by
  intro data
  induction data with
  | nil => intro acc _ _ _; simp [convertListAux]
  | cons q rest ih =>
    intro acc hall hd hdisj
    obtain ⟨k, v⟩ := q
    simp only [List.all_cons, Bool.and_eq_true] at hall
    obtain ⟨hq, hrest⟩ := hall
    simp only [keys, List.map_cons, distinctKeysB, Bool.and_eq_true] at hd
    obtain ⟨hdk, hdrest⟩ := hd
    match v, hq with
    | .obj fields, hq =>
      simp only [wfPairB] at hq
      cases hl : lookupStr "errata_id" fields with
      | none => rw [hl] at hq; simp at hq
      | some idv =>
        rw [hl] at hq
        simp only [Bool.and_eq_true] at hq
        have hik : idv = k := pyKeyEq_eq hq.1
        subst hik
        have hkey : asKey idv = .ok idv := asKey_of_hashB hq.2
        have hck : containsKeyB idv acc = false := hdisj idv
          (by rw [show keys ((idv, Json.obj fields) :: rest) = idv :: keys rest from rfl]
              exact List.mem_cons_self _ _)
        have hstep : convertListAux acc (((idv, Json.obj fields) :: rest).map (fun p => p.2))
            = convertListAux (acc ++ [(idv, Json.obj fields)]) (rest.map (fun p => p.2)) := by
          simp [convertListAux, hasIdKeyB, any_key_eq_isSome, hl, getIdVal, hkey,
            exbind_ok, dinsert_of_not_contains _ hck]
        rw [hstep]
        rw [ih (acc ++ [(idv, Json.obj fields)]) hrest hdrest ?_]
        · simp
        · intro k1 hk1
          rw [containsKeyB_append]
          have h1 : containsKeyB k1 acc = false := hdisj k1
            (by rw [show keys ((idv, Json.obj fields) :: rest) = idv :: keys rest from rfl]
                exact List.mem_cons_of_mem _ hk1)
          have h2 : pyKeyEq idv k1 = false := by
            have := List.all_eq_true.mp hdk k1 (by simpa [keys] using hk1)
            simpa using this
          have h3 : containsKeyB k1 [(idv, Json.obj fields)] = false := by
            simp [containsKeyB, h2]
          simp [h1, h3]

/-- For a well-formed store, saving and re-loading is the identity. -/
theorem store_roundtrip (data : Collection) (h : wfStoreB data = true) :
    load_existing_data (.content (save_data_to_json data)) = .ok data := by
  simp only [wfStoreB, Bool.and_eq_true] at h
  have hrt := convertListAux_roundtrip data [] h.1 h.2 (fun k1 _ => rfl)
  simpa [load_existing_data, save_data_to_json] using hrt

/-! ### Claim C10 -/

/-- Claim C10: for every collection whose records carry an `errata_id`
field equal to their key (with distinct, hashable keys — the shape every
collection written by this program has), `save_data_to_json` followed by
`load_existing_data` is the identity: save serializes only the value list
and load re-keys it by `errata_id`. -/
theorem c10_save_load_roundtrip (data : Collection) (h : wfStoreB data = true) :
    load_existing_data (.content (save_data_to_json data)) = .ok data :=
  store_roundtrip data h

/-- Witness for C10 on a two-record store. -/
theorem c10_save_load_roundtrip_witness :
    wfStoreB [(.str "RHSA-A", mkRecord "RHSA-A" "c1" "Low" "2024-01-01" "s1" "m1"),
      (.str "RHSA-B", mkRecord "RHSA-B" "c2" "High" "2024-02-02" "s2" "m2")] = true
    ∧ load_existing_data (.content (save_data_to_json
        [(.str "RHSA-A", mkRecord "RHSA-A" "c1" "Low" "2024-01-01" "s1" "m1"),
         (.str "RHSA-B", mkRecord "RHSA-B" "c2" "High" "2024-02-02" "s2" "m2")]))
      = .ok [(.str "RHSA-A", mkRecord "RHSA-A" "c1" "Low" "2024-01-01" "s1" "m1"),
         (.str "RHSA-B", mkRecord "RHSA-B" "c2" "High" "2024-02-02" "s2" "m2")] :=
  ⟨rfl, c10_save_load_roundtrip _ rfl⟩

/-! ### Claim C7 -/

theorem exMapM_ok_of_forall {f : α → Except PyErr β} :
    ∀ {l : List α}, (∀ x ∈ l, ∃ y, f x = .ok y) →
      ∃ ys, exMapM f l = .ok ys ∧ List.Forall₂ (fun x y => f x = .ok y) l ys := by
  intro l
  induction l with
  | nil => intro _; exact ⟨[], rfl, List.Forall₂.nil⟩
  | cons x xs ih =>
    intro h
    obtain ⟨y, hy⟩ := h x (by simp)
    obtain ⟨ys, hys, hfa⟩ := ih (fun a ha => h a (by simp [ha]))
    exact ⟨y :: ys, by simp [exMapM, hy, hys, exbind_ok], List.Forall₂.cons hy hfa⟩

theorem forall2_mem_right {R : α → β → Prop} :
    ∀ {l1 : List α} {l2 : List β}, List.Forall₂ R l1 l2 → ∀ b ∈ l2, ∃ a ∈ l1, R a b := by
  intro l1 l2 h
  induction h with
  | nil => intro b hb; simp at hb
  | cons hr _ ih =>
    intro b hb
    rcases List.mem_cons.mp hb with hb | hb
    · subst hb; exact ⟨_, by simp, hr⟩
    · obtain ⟨a, ha, hra⟩ := ih b hb
      exact ⟨a, by simp [ha], hra⟩

theorem forall2_map_eq {R : α → β → Prop} (f : β → α) :
    ∀ {l1 : List α} {l2 : List β}, List.Forall₂ R l1 l2 →
      (∀ a b, R a b → f b = a) → l2.map f = l1 := by
  intro l1 l2 h hf
  induction h with
  | nil => rfl
  | cons hr _ ih => simp [hf _ _ hr, ih]

theorem forall2_map_pair {R : β → γ → Prop} :
    ∀ {l : List (γ × β)}, (∀ q ∈ l, R q.2 q.1) →
      List.Forall₂ R (l.map (fun q => q.2)) (l.map (fun q => q.1)) := by
  intro l
  induction l with
  | nil => intro _; exact List.Forall₂.nil
  | cons q rest ih =>
    intro h
    exact List.Forall₂.cons (h q (by simp)) (ih (fun x hx => h x (by simp [hx])))

theorem collectStrKeys_of_str :
    ∀ {keyed : List (Json × Json)},
      (∀ p ∈ keyed, ∃ s : String, p.1 = .str s) →
      ∃ skeyed, collectStrKeys keyed = some skeyed
        ∧ skeyed.map (fun q => ((Json.str q.1 : Json), q.2)) = keyed := by
  intro keyed
  induction keyed with
  | nil => intro _; exact ⟨[], rfl, rfl⟩
  | cons kv rest ih =>
    intro h
    obtain ⟨s, hs⟩ := h kv (by simp)
    obtain ⟨skeyed, hcol, hmap⟩ := ih (fun p hp => h p (by simp [hp]))
    refine ⟨(s, kv.2) :: skeyed, ?_, ?_⟩
    · have hkv : kv = ((Json.str s : Json), kv.2) := by
        rw [← hs]
      rw [hkv]
      simp [collectStrKeys, hcol]
    · simp [hmap, ← hs]

theorem sortValsByDate_str (keyed : List (Json × Json))
    (h : ∀ p ∈ keyed, ∃ s : String, p.1 = .str s) :
    ∃ sortedPairs : List (String × Json),
      sortValsByDate keyed = .ok (sortedPairs.map (fun q => q.2))
      ∧ sortedPairs.Pairwise (fun a b => strLe b.1 a.1 = true)
      ∧ (sortedPairs.map (fun q => ((Json.str q.1 : Json), q.2))).Perm keyed := by
  rcases keyed with _ | ⟨kv, _ | ⟨kv2, krest⟩⟩
  · exact ⟨[], rfl, List.Pairwise.nil, List.Perm.nil⟩
  · obtain ⟨s, hs⟩ := h kv (by simp)
    refine ⟨[(s, kv.2)], rfl, by simp, ?_⟩
    have hkv : ((Json.str s : Json), kv.2) = kv := by
      rw [← hs]
    simp [hkv]
  · obtain ⟨skeyed, hcol, hmap⟩ := collectStrKeys_of_str h
    refine ⟨ssort (fun a b => strLe b.1 a.1) skeyed, ?_, ?_, ?_⟩
    · simp [sortValsByDate, hcol]
    · exact ssort_pairwise (fun a b => strLe b.1 a.1)
        (fun a b c h1 h2 => by
          have h1x : strLe b.1 a.1 = true := h1
          have h2x : strLe c.1 b.1 = true := h2
          exact strLe_trans h2x h1x)
        (fun a b => strLe_total b.1 a.1) skeyed
    · have hp1 : ((ssort (fun a b => strLe b.1 a.1) skeyed).map
            (fun q => ((Json.str q.1 : Json), q.2))).Perm
            (skeyed.map (fun q => ((Json.str q.1 : Json), q.2))) :=
        (ssort_perm _ _).map _
      rw [hmap] at hp1
      exact hp1

/-- A record the CSV writer can export: an object carrying the six expected
fields, with a string `issue_date`. -/
def csvReadyB : Json → Bool
  | .obj fields =>
    (match lookupStr "issue_date" fields with
     | some (.str _) => true
     | _ => false)
    && (lookupStr "errata_id" fields).isSome
    && (lookupStr "cve_id" fields).isSome
    && (lookupStr "severity" fields).isSome
    && (lookupStr "original_synopsis" fields).isSome
    && (lookupStr "summary" fields).isSome
  | _ => false

theorem csvReady_date {v : Json} (h : csvReadyB v = true) :
    ∃ s, pyItem v "issue_date" = .ok (.str s) := by
  cases v with
  | obj fields =>
    cases hl : lookupStr "issue_date" fields with
    | none => simp [csvReadyB, hl] at h
    | some j =>
      cases j with
      | str s => exact ⟨s, by simp [pyItem, hl]⟩
      | num n => simp [csvReadyB, hl] at h
      | bool b => simp [csvReadyB, hl] at h
      | null => simp [csvReadyB, hl] at h
      | arr l => simp [csvReadyB, hl] at h
      | obj f2 => simp [csvReadyB, hl] at h
  | str s => simp [csvReadyB] at h
  | num n => simp [csvReadyB] at h
  | bool b => simp [csvReadyB] at h
  | null => simp [csvReadyB] at h
  | arr l => simp [csvReadyB] at h

theorem csvReady_row {v : Json} (h : csvReadyB v = true) :
    ∃ r, recordRow v = .ok r := by
  cases v with
  | obj fields =>
    simp only [csvReadyB, Bool.and_eq_true] at h
    obtain ⟨⟨⟨⟨⟨hdt, h1⟩, h2⟩, h3⟩, h4⟩, h5⟩ := h
    obtain ⟨a, ha⟩ := Option.isSome_iff_exists.mp h1
    obtain ⟨b, hb⟩ := Option.isSome_iff_exists.mp h2
    obtain ⟨c, hc⟩ := Option.isSome_iff_exists.mp h3
    cases hl : lookupStr "issue_date" fields with
    | none => rw [hl] at hdt; simp at hdt
    | some d =>
      obtain ⟨e, he⟩ := Option.isSome_iff_exists.mp h4
      obtain ⟨f, hf⟩ := Option.isSome_iff_exists.mp h5
      exact ⟨[a, b, c, d, e, f],
        by simp [recordRow, pyItem, ha, hb, hc, hl, he, hf, exbind_ok]⟩
  | str s => simp [csvReadyB] at h
  | num n => simp [csvReadyB] at h
  | bool b => simp [csvReadyB] at h
  | null => simp [csvReadyB] at h
  | arr l => simp [csvReadyB] at h

theorem keyed_rel_unpack {v : Json} {p : Json × Json}
    (h : (do
      let d ← pyItem v "issue_date"
      pure ((d, v) : Json × Json) : Except PyErr (Json × Json)) = .ok p) :
    pyItem v "issue_date" = .ok p.1 ∧ p.2 = v := by
  cases hv : pyItem v "issue_date" with
  | error e => rw [hv] at h; simp [exbind_err] at h
  | ok d =>
    rw [hv] at h
    simp only [exbind_ok] at h
    injection h with h
    subst h
    exact ⟨rfl, rfl⟩

/-- Claim C7: the CSV export writes the header first and exactly one row
per record, the records ordered by `issue_date` descending under CPython's
lexicographic (code-point) string comparison; an empty collection produces
no output at all. -/
theorem c7_report_ordering (data : Collection)
    (h : data.all (fun p => csvReadyB p.2) = true) :
    (data = [] → save_data_to_csv data = .ok none)
    ∧ (data ≠ [] → ∃ sortedVals rows,
        save_data_to_csv data = .ok (some ⟨csvHeader, rows⟩)
        ∧ sortedVals.Perm (data.map (fun p => p.2))
        ∧ List.Forall₂ (fun v r => recordRow v = .ok r) sortedVals rows
        ∧ ∃ dates, List.Forall₂ (fun v d => pyItem v "issue_date" = .ok (.str d))
            sortedVals dates
          ∧ dates.Pairwise (fun a b => strLe b a = true)) := by
  constructor
  · intro he; subst he; rfl
  · intro hne
    have hvals : ∀ v ∈ data.map (fun p => p.2), csvReadyB v = true := by
      intro v hv
      obtain ⟨p, hp, hpv⟩ := List.mem_map.mp hv
      rw [← hpv]
      exact List.all_eq_true.mp h p hp
    have hf : ∀ v ∈ data.map (fun p => p.2), ∃ y,
        (do
          let d ← pyItem v "issue_date"
          pure ((d, v) : Json × Json) : Except PyErr (Json × Json)) = .ok y := by
      intro v hv
      obtain ⟨s, hs⟩ := csvReady_date (hvals v hv)
      exact ⟨(.str s, v), by simp [hs, exbind_ok]⟩
    obtain ⟨keyed, hkeyed, hfa⟩ := exMapM_ok_of_forall hf
    have hkfact : ∀ p ∈ keyed, (∃ s : String, p.1 = Json.str s)
        ∧ pyItem p.2 "issue_date" = .ok p.1 ∧ p.2 ∈ data.map (fun q => q.2) := by
      intro p hp
      obtain ⟨v, hv, hrel⟩ := forall2_mem_right hfa p hp
      have hup := keyed_rel_unpack hrel
      obtain ⟨hh1, hh2⟩ := hup
      obtain ⟨s, hs⟩ := csvReady_date (hvals v hv)
      rw [hh2]
      refine ⟨⟨s, ?_⟩, hh1, hv⟩
      exact Except.ok.inj (hh1.symm.trans hs)
    obtain ⟨sortedPairs, hsv, hpw, hperm⟩ :=
      sortValsByDate_str keyed (fun p hp => (hkfact p hp).1)
    have hsorted_mem : ∀ q ∈ sortedPairs, ((Json.str q.1 : Json), q.2) ∈ keyed := by
      intro q hq
      exact hperm.subset (List.mem_map_of_mem _ hq)
    have hsv_ready : ∀ v ∈ sortedPairs.map (fun q => q.2), csvReadyB v = true := by
      intro v hv
      obtain ⟨q, hq, hqv⟩ := List.mem_map.mp hv
      rw [← hqv]
      exact hvals _ (hkfact _ (hsorted_mem q hq)).2.2
    obtain ⟨rows, hrows, hfar⟩ := exMapM_ok_of_forall
      (fun v hv => csvReady_row (hsv_ready v hv))
    refine ⟨sortedPairs.map (fun q => q.2), rows, ?_, ?_, hfar, ?_⟩
    · have hie : data.isEmpty = false := by
        cases data with
        | nil => exact absurd rfl hne
        | cons a b => rfl
      unfold save_data_to_csv
      rw [hie]
      simp only [Bool.false_eq_true, if_false]
      rw [hkeyed, exbind_ok, hsv, exbind_ok, hrows, exbind_ok]
      rfl
    · have h1 : (sortedPairs.map (fun q => q.2)).Perm (keyed.map (fun p => p.2)) := by
        have h2 := hperm.map (fun p => (p.2 : Json))
        simpa [List.map_map, Function.comp] using h2
      have h2 : keyed.map (fun p => p.2) = data.map (fun p => p.2) := by
        refine forall2_map_eq _ hfa ?_
        intro a b hr
        exact (keyed_rel_unpack hr).2
      rw [h2] at h1
      exact h1
    · refine ⟨sortedPairs.map (fun q => q.1), ?_, ?_⟩
      · refine forall2_map_pair ?_
        intro q hq
        exact (hkfact _ (hsorted_mem q hq)).2.1
      · rw [List.pairwise_map]
        exact hpw

/-- Witness for C7 on the spec's three-date example: rows come out in the
order 2024-06-20, 2024-03-01, 2024-01-10, after the header. -/
theorem c7_report_ordering_witness :
    ([((Json.str "R1" : Json), mkRecord "R1" "c" "Low" "2024-03-01" "s1" "m1"),
      ((Json.str "R2" : Json), mkRecord "R2" "c" "Low" "2024-01-10" "s2" "m2"),
      ((Json.str "R3" : Json), mkRecord "R3" "c" "Low" "2024-06-20" "s3" "m3")].all
        (fun p => csvReadyB p.2) = true)
    ∧ save_data_to_csv
        [((Json.str "R1" : Json), mkRecord "R1" "c" "Low" "2024-03-01" "s1" "m1"),
         ((Json.str "R2" : Json), mkRecord "R2" "c" "Low" "2024-01-10" "s2" "m2"),
         ((Json.str "R3" : Json), mkRecord "R3" "c" "Low" "2024-06-20" "s3" "m3")]
      = .ok (some ⟨csvHeader,
        [[.str "R3", .str "c", .str "Low", .str "2024-06-20", .str "s3", .str "m3"],
         [.str "R1", .str "c", .str "Low", .str "2024-03-01", .str "s1", .str "m1"],
         [.str "R2", .str "c", .str "Low", .str "2024-01-10", .str "s2", .str "m2"]]⟩)
    ∧ (∃ sortedVals rows,
        save_data_to_csv
          [((Json.str "R1" : Json), mkRecord "R1" "c" "Low" "2024-03-01" "s1" "m1"),
           ((Json.str "R2" : Json), mkRecord "R2" "c" "Low" "2024-01-10" "s2" "m2"),
           ((Json.str "R3" : Json), mkRecord "R3" "c" "Low" "2024-06-20" "s3" "m3")]
          = .ok (some ⟨csvHeader, rows⟩)
        ∧ sortedVals.Perm
            ([((Json.str "R1" : Json), mkRecord "R1" "c" "Low" "2024-03-01" "s1" "m1"),
              ((Json.str "R2" : Json), mkRecord "R2" "c" "Low" "2024-01-10" "s2" "m2"),
              ((Json.str "R3" : Json), mkRecord "R3" "c" "Low" "2024-06-20" "s3" "m3")].map
                (fun p => p.2))
        ∧ List.Forall₂ (fun v r => recordRow v = .ok r) sortedVals rows
        ∧ ∃ dates, List.Forall₂ (fun v d => pyItem v "issue_date" = .ok (.str d))
            sortedVals dates
          ∧ dates.Pairwise (fun a b => strLe b a = true)) :=
  ⟨rfl, rfl,
    (c7_report_ordering
      [((Json.str "R1" : Json), mkRecord "R1" "c" "Low" "2024-03-01" "s1" "m1"),
       ((Json.str "R2" : Json), mkRecord "R2" "c" "Low" "2024-01-10" "s2" "m2"),
       ((Json.str "R3" : Json), mkRecord "R3" "c" "Low" "2024-06-20" "s3" "m3")] rfl).2
      (by simp)⟩

/-! ### Claim C1 -/

/-- After a completed run from a well-formed store, the in-memory result is
well-formed and the store file the run leaves behind (the saved content
when the save branch ran, the untouched original file otherwise) loads back
to exactly the run's final collection. -/
theorem scrape_first (fetch : String → FetchResult)
    (llm_url api_token model : Option String) (post : String → PostResult)
    (file0 : LoadFile) (rows : List ListingRow) (data0 : Collection)
    (out1 : ScrapeOutcome)
    (h0 : load_existing_data file0 = .ok data0)
    (hwf : wfStoreB data0 = true)
    (h1 : scrape_redhat_errata fetch llm_url api_token model post file0 rows = .ok out1) :
    wfStoreB out1.finalData = true
    ∧ load_existing_data
        (match out1.savedFile with
         | some j => .content j
         | none => file0)
      = .ok out1.finalData := by
  cases rows with
  | nil =>
    rw [scrape_empty fetch llm_url api_token model post file0 data0 h0] at h1
    injection h1 with h1
    subst h1
    exact ⟨hwf, h0⟩
  | cons r rs =>
    obtain ⟨csv, comp, hspec⟩ :=
      scrape_spec fetch llm_url api_token model post file0 (r :: rs) data0 h0 (by simp)
    rw [hspec] at h1
    injection h1 with h1
    subst h1
    have hwf1 : wfStoreB (processRows fetch llm_url api_token model post (keys data0)
        ⟨data0, 0⟩ (r :: rs)).data = true :=
      processRows_wf fetch llm_url api_token model post (keys data0) (r :: rs)
        ⟨data0, 0⟩ hwf
    refine ⟨hwf1, ?_⟩
    by_cases hc : (processRows fetch llm_url api_token model post (keys data0)
        ⟨data0, 0⟩ (r :: rs)).count > 0
    · show load_existing_data
        (match (if (processRows fetch llm_url api_token model post (keys data0)
            ⟨data0, 0⟩ (r :: rs)).count > 0
          then some (save_data_to_json (processRows fetch llm_url api_token model post
            (keys data0) ⟨data0, 0⟩ (r :: rs)).data)
          else none) with
         | some j => LoadFile.content j
         | none => file0)
        = .ok (processRows fetch llm_url api_token model post (keys data0)
            ⟨data0, 0⟩ (r :: rs)).data
      rw [if_pos hc]
      exact store_roundtrip _ hwf1
    · have hc0 : (processRows fetch llm_url api_token model post (keys data0)
          ⟨data0, 0⟩ (r :: rs)).count = 0 := by omega
      have hid := processRows_id_of_count_eq fetch llm_url api_token model post
        (keys data0) (r :: rs) ⟨data0, 0⟩ hc0
      show load_existing_data
        (match (if (processRows fetch llm_url api_token model post (keys data0)
            ⟨data0, 0⟩ (r :: rs)).count > 0
          then some (save_data_to_json (processRows fetch llm_url api_token model post
            (keys data0) ⟨data0, 0⟩ (r :: rs)).data)
          else none) with
         | some j => LoadFile.content j
         | none => file0)
        = .ok (processRows fetch llm_url api_token model post (keys data0)
            ⟨data0, 0⟩ (r :: rs)).data
      rw [hid]
      exact h0

/-- A run whose listing only carries already-known ids is a no-op: zero new
records, unchanged collection, no save. -/
theorem scrape_again (fetch : String → FetchResult)
    (llm_url api_token model : Option String) (post : String → PostResult)
    (file : LoadFile) (rows : List ListingRow) (d1 : Collection)
    (out : ScrapeOutcome)
    (hload : load_existing_data file = .ok d1)
    (hknown : allParsedKnownB (keys d1) rows = true)
    (h : scrape_redhat_errata fetch llm_url api_token model post file rows = .ok out) :
    out.newCount = 0 ∧ out.finalData = d1 ∧ out.savedFile = none := by
  cases rows with
  | nil =>
    rw [scrape_empty fetch llm_url api_token model post file d1 hload] at h
    injection h with h
    subst h
    exact ⟨rfl, rfl, rfl⟩
  | cons r rs =>
    obtain ⟨csv, comp, hspec⟩ :=
      scrape_spec fetch llm_url api_token model post file (r :: rs) d1 hload (by simp)
    rw [hspec] at h
    injection h with h
    subst h
    have hskip := processRows_skip_all fetch llm_url api_token model post (keys d1)
      (r :: rs) ⟨d1, 0⟩ hknown
    refine ⟨?_, ?_, ?_⟩ <;> simp [hskip]

/-- Claim C1: running the harvest twice against an unchanged listing and
the store file the first run left behind adds nothing the second time —
when every externalId parsed from the listing is a key of the first run's
final collection, the second run reports zero new items, its in-memory
collection equals the first run's, and it skips the save (the persisted
collection is unchanged). -/
theorem c1_second_run_noop (fetch : String → FetchResult)
    (llm_url api_token model : Option String) (post : String → PostResult)
    (file0 : LoadFile) (rows : List ListingRow) (data0 : Collection)
    (out1 out2 : ScrapeOutcome)
    (h0 : load_existing_data file0 = .ok data0)
    (hwf : wfStoreB data0 = true)
    (h1 : scrape_redhat_errata fetch llm_url api_token model post file0 rows = .ok out1)
    (hknown : allParsedKnownB (keys out1.finalData) rows = true)
    (h2 : scrape_redhat_errata fetch llm_url api_token model post
        (match out1.savedFile with
         | some j => .content j
         | none => file0) rows = .ok out2) :
    out2.newCount = 0 ∧ out2.finalData = out1.finalData ∧ out2.savedFile = none := by
  obtain ⟨hwf1, hload2⟩ := scrape_first fetch llm_url api_token model post file0 rows
    data0 out1 h0 hwf h1
  exact scrape_again fetch llm_url api_token model post
    (match out1.savedFile with
     | some j => .content j
     | none => file0) rows out1.finalData out2 hload2 hknown h2

/-- The first witness run: one new row harvested from an absent store. -/
def c1Out1 : ScrapeOutcome :=
  match scrape_redhat_errata fetchFail none none none postFail .absent [newListingRow] with
  | .ok o => o
  | .error _ => ⟨[], 0, none, none, false⟩

/-- The second witness run, against the file saved by the first. -/
def c1Out2 : ScrapeOutcome :=
  match scrape_redhat_errata fetchFail none none none postFail
      (match c1Out1.savedFile with
       | some j => .content j
       | none => .absent) [newListingRow] with
  | .ok o => o
  | .error _ => ⟨[], 0, none, none, false⟩

/-- Witness for C1: the concrete second run finds zero new records, keeps
the collection, and skips the save. -/
theorem c1_second_run_noop_witness :
    c1Out2.newCount = 0 ∧ c1Out2.finalData = c1Out1.finalData
    ∧ c1Out2.savedFile = none :=
  c1_second_run_noop fetchFail none none none postFail .absent [newListingRow] []
    c1Out1 c1Out2 rfl rfl rfl rfl rfl

end ErrataReport
